import Mathlib

/-!
Verification of the customs-clearance repository against its specification.

The repository's checked-in TypeScript source is the presentation-tier HTTP
client (`src/presentation-tier/frontend/src/lib/api.ts`); the hybrid
recommendation engine described by the specification is not present under
`src/`. The engine (Corpus Store, Lexical/Semantic Index, Result Cache,
Hybrid Ranker, Augmentation Stage) is therefore modelled here from the
specification's own words, while the `ApiClient` definitions are a direct
shallow embedding of `api.ts`. Scores are modelled as rationals; division
by zero in min-max normalization follows the rational convention `x / 0 = 0`.
-/

namespace CustomsClearance

namespace Engine

/-- Modelled from the spec: a Candidate Result pairs a Classification Entry
reference (here its code) with the per-signal scores and the final blended
score (the `ScoreBreakdown` record of the design notes). The engine code is
missing from `src/`. -/
structure Candidate where
  code : String
  lexical : ℚ
  semantic : ℚ
  blended : ℚ
deriving DecidableEq, Repr

/-- Modelled from the spec: look a code up in an association list of per-code
scores; an entry absent from one signal's candidate set contributes score 0
for that signal rather than being excluded. -/
def lookupScore (scores : List (String × ℚ)) (c : String) : ℚ :=
  match scores.find? (fun p => decide (p.1 = c)) with
  | some p => p.2
  | none => 0

/-- Modelled from the spec: normalize one signal's scores to [0,1] via
min-max over the returned candidate set (not the whole corpus). When all
scores coincide the rational convention `x / 0 = 0` applies. -/
def minMaxNorm (scores : List (String × ℚ)) : List (String × ℚ) :=
  match scores with
  | [] => []
  | p :: ps =>
    let lo := (ps.map Prod.snd).foldr min p.2
    let hi := (ps.map Prod.snd).foldr max p.2
    (p :: ps).map (fun q => (q.1, (q.2 - lo) / (hi - lo)))

/-- Modelled from the spec: the ranking order — descending by blended score,
tie-break by code ascending (non-strict form used for sorting). -/
def candRel (a b : Candidate) : Prop :=
  b.blended < a.blended ∨ (a.blended = b.blended ∧ a.code ≤ b.code)

instance : DecidableRel candRel := fun a b => by
  unfold candRel; infer_instance

instance : IsTotal Candidate candRel where
  total a b := by
    rcases lt_trichotomy a.blended b.blended with h | h | h
    · exact Or.inr (Or.inl h)
    · rcases le_total a.code b.code with hc | hc
      · exact Or.inl (Or.inr ⟨h, hc⟩)
      · exact Or.inr (Or.inr ⟨h.symm, hc⟩)
    · exact Or.inl (Or.inl h)

instance : IsTrans Candidate candRel where
  trans a b c hab hbc := by
    rcases hab with h1 | ⟨h1, hc1⟩
    · rcases hbc with h2 | ⟨h2, _⟩
      · exact Or.inl (h2.trans h1)
      · exact Or.inl (h2 ▸ h1)
    · rcases hbc with h2 | ⟨h2, hc2⟩
      · exact Or.inl (h1 ▸ h2)
      · exact Or.inr ⟨h1.trans h2, hc1.trans hc2⟩

/-- Modelled from the spec: the strict ranking order the returned sequence
satisfies — strictly descending by blended score with code ascending as the
tie-break. -/
def candStrict (a b : Candidate) : Prop :=
  b.blended < a.blended ∨ (a.blended = b.blended ∧ a.code < b.code)

/-- Modelled from the spec: the union of the two signals' candidate entries;
when the Semantic Index is disabled it returns no candidates, so only the
lexical candidates remain. -/
def candCodes (lex sem : List (String × ℚ)) (semEnabled : Bool) : List String :=
  (lex.map Prod.fst ++ (if semEnabled then sem else []).map Prod.fst).dedup

/-- Modelled from the spec: score one candidate of the union. Each signal's
scores are min-max normalized independently, then blended with
`α·lexicalNorm + (1−α)·semanticNorm`; a missing signal scores 0, and when
the semantic capability is disabled the ranker falls back to lexical-only
scoring (α effectively forced to 1). -/
def mkCand (lex sem : List (String × ℚ)) (α : ℚ) (semEnabled : Bool)
    (c : String) : Candidate :=
  let aEff := if semEnabled then α else 1
  let ln := lookupScore (minMaxNorm lex) c
  let sn := lookupScore (minMaxNorm (if semEnabled then sem else [])) c
  { code := c, lexical := ln, semantic := sn,
    blended := aEff * ln + (1 - aEff) * sn }

/-- Modelled from the spec: the Hybrid Ranker's sort pass — score every
candidate in the union, then sort descending by blended score with code
ascending as tie-break. -/
def rankCandidates (lex sem : List (String × ℚ)) (α : ℚ) (semEnabled : Bool) :
    List Candidate :=
  List.insertionSort candRel
    ((candCodes lex sem semEnabled).map (mkCand lex sem α semEnabled))

/-- Modelled from the spec: a Query Cache key — (corpus version fingerprint,
normalized query fingerprint, engine configuration fingerprint). -/
structure CacheKey where
  corpusFP : Nat
  queryFP : Nat
  configFP : Nat
deriving DecidableEq, Repr

/-- Modelled from the spec: the Query Cache as an association list from full
keys to serialized ranked result lists. A cache entry carries the corpus
fingerprint it was created under inside its key, so an entry whose corpus
fingerprint does not match the live corpus is never consulted. -/
abbrev Cache : Type := List (CacheKey × List Candidate)

/-- Modelled from the spec: `get(key) -> Optional<Value>` never fails — a
miss is the `none` outcome, not an error. Only an entry whose full key
(including corpus fingerprint) matches is returned. -/
def cacheGet (cache : Cache) (key : CacheKey) : Option (List Candidate) :=
  match cache.find? (fun e => decide (e.1 = key)) with
  | some e => some e.2
  | none => none

/-- Modelled from the spec: error kinds `InvalidConfigError` (blend weight α
outside [0,1]) and `InvalidQueryError` (k < 1), rejected before any work. -/
inductive EngineError where
  | invalidConfig
  | invalidQuery
deriving DecidableEq, Repr

/-- Modelled from the spec: the Hybrid Ranker's `recommend`. Validates α and
k first; consults the Query Cache and on a hit returns the cached ranking
re-truncated to k; on a miss ranks, truncates to k, and writes the computed
ranking through to the Query Cache. A `CacheWriteError` (modelled by
`writeOk = false`) is swallowed: the result is still returned and only the
write is dropped. -/
def recommend (lex sem : List (String × ℚ)) (k : Nat) (α : ℚ)
    (semEnabled : Bool) (key : CacheKey) (cache : Cache) (writeOk : Bool) :
    Except EngineError (List Candidate × Cache) :=
  if α < 0 ∨ 1 < α then .error .invalidConfig
  else if k < 1 then .error .invalidQuery
  else
    match cacheGet cache key with
    | some rs => .ok (rs.take k, cache)
    | none =>
      let ranked := rankCandidates lex sem α semEnabled
      .ok (ranked.take k, if writeOk then (key, ranked) :: cache else cache)

/-- Modelled from the spec: a cache state is coherent for the given inputs
when any entry stored under the live key is exactly the ranking the miss
path would compute (cached values are pure functions of the key). -/
def CacheCoherent (lex sem : List (String × ℚ)) (α : ℚ) (semEnabled : Bool)
    (key : CacheKey) (cache : Cache) : Prop :=
  ∀ rs, cacheGet cache key = some rs → rs = rankCandidates lex sem α semEnabled

/-- Modelled from the spec: the augmentation capability's failure modes —
timeout, quota, network. -/
inductive AugFailure where
  | timeout
  | quota
  | network
deriving DecidableEq, Repr

/-- Modelled from the spec: the best-effort Augmentation Stage. A capability
failure (or an absent capability) is caught and the unaugmented ranked list
is passed through unchanged, tagged as not augmented; nothing is raised to
the caller. -/
def augmentStage (cap : Option (List Candidate → Except AugFailure (List Candidate)))
    (ranked : List Candidate) : List Candidate × Bool :=
  match cap with
  | none => (ranked, false)
  | some f =>
    match f ranked with
    | .error _ => (ranked, false)
    | .ok l => (l, true)

/-- Modelled from the spec: the full query pipeline — rank (with cache), then
hand the top-k to the Augmentation Stage. Augmentation output is never
written to the Query Cache: the cache component is the one produced by
`recommend`. -/
def respond (lex sem : List (String × ℚ)) (k : Nat) (α : ℚ)
    (semEnabled : Bool) (key : CacheKey) (cache : Cache) (writeOk : Bool)
    (cap : Option (List Candidate → Except AugFailure (List Candidate))) :
    Except EngineError ((List Candidate × Bool) × Cache) :=
  match recommend lex sem k α semEnabled key cache writeOk with
  | .error e => .error e
  | .ok (rs, c) => .ok (augmentStage cap rs, c)

/-- Modelled from the spec: split a character list into case-folded tokens,
collapsing any amount of whitespace (`acc` holds the reversed current
token). -/
def tokenizeAux : List Char → List Char → List String
  | [], [] => []
  | [], acc => [String.mk acc.reverse]
  | c :: cs, acc =>
    if c.isWhitespace then
      match acc with
      | [] => tokenizeAux cs []
      | _ => String.mk acc.reverse :: tokenizeAux cs []
    else tokenizeAux cs (c.toLower :: acc)

/-- Modelled from the spec: the case-folded, whitespace-collapsed token list
of a query string. -/
def normTokens (s : String) : List String :=
  tokenizeAux s.toList []

/-- Modelled from the spec: an executable hash over a token list (the exact
hash is opaque to the rest of the system). -/
def hashTokens (l : List String) : Nat :=
  l.foldl (fun h s => s.toList.foldl (fun h c => h * 131 + c.toNat) (h * 257 + 1)) 7

/-- Modelled from the spec: the query fingerprint — case-fold,
whitespace-collapse, stable-sort the query's token set, then hash, so that
token-order-insensitive equivalent queries share a cache entry. -/
def queryFingerprint (s : String) : Nat :=
  hashTokens (List.insertionSort (· ≤ ·) (normTokens s).dedup)

end Engine

namespace ApiClient

/-- Request configuration as far as the interceptors inspect it: the target
url and the `Authorization` header slot (from `api.ts`). -/
structure ReqConfig where
  url : String
  authorization : Option String
deriving DecidableEq, Repr

/-- Browser-side client state touched by the interceptors: the stored auth
token (`localStorage` key `auth_token`) and `window.location.href` (from
`api.ts`). -/
structure ClientState where
  authToken : Option String
  location : String
deriving DecidableEq, Repr

/-- JavaScript truthiness of an optional string: `null`/`undefined` and the
empty string are falsy. -/
def truthy : Option String → Bool
  | none => false
  | some s => decide (s ≠ "")

/-- JavaScript `o || d` on an optional string field: the default is taken
when the field is absent or falsy (empty). -/
def orFalsy (o : Option String) (d : String) : String :=
  match o with
  | some s => if s = "" then d else s
  | none => d

/-- Request interceptor of `ApiClient.setupInterceptors`: if an auth token
is truthy, set `config.headers.Authorization = Bearer <token>`; otherwise
leave the config unchanged. -/
def requestInterceptor (token : Option String) (cfg : ReqConfig) : ReqConfig :=
  match token with
  | some t => if t ≠ "" then { cfg with authorization := some ("Bearer " ++ t) } else cfg
  | none => cfg

/-- Payload fields of a server error response body read by the response
interceptor (`error.response.data`). -/
structure ErrorResponseData where
  message : Option String
  code : Option String
  timestamp : Option String
  details : Option String
deriving DecidableEq, Repr

/-- The `error.response` object: HTTP status, response body, and the
request config's url. -/
structure ErrorResponse where
  status : Nat
  data : ErrorResponseData
  configUrl : Option String
deriving DecidableEq, Repr

/-- An axios failure as the response interceptor distinguishes it: a server
response, or a sent-but-unanswered request, or a setup failure. -/
structure AxiosErrorModel where
  response : Option ErrorResponse
  hasRequest : Bool
  configUrl : Option String
deriving DecidableEq, Repr

/-- The normalized `ApiError` record every failed request rejects with
(from `@/types/api` as used by `api.ts`). -/
structure ApiError where
  message : String
  code : String
  timestamp : String
  path : String
  details : Option String
deriving DecidableEq, Repr

/-- The `handleUnauthorized` routine: clear the stored auth token and
redirect to the login page. -/
def handleUnauthorized (st : ClientState) : ClientState :=
  { st with authToken := none, location := "/login" }

/-- Response error interceptor of `ApiClient.setupInterceptors`. `now`
stands for `new Date().toISOString()`. When the server responded, the
`ApiError` is built from the response body with defaults for falsy fields,
then the status switch runs (401 clears auth and redirects; 403, 404 and
500 replace the message). With no response but a sent request it is a
network error; otherwise a request setup error. -/
def responseErrorInterceptor (now : String) (st : ClientState)
    (e : AxiosErrorModel) : ApiError × ClientState :=
  match e.response with
  | some r =>
    let apiError : ApiError :=
      { message := orFalsy r.data.message "서버 오류가 발생했습니다."
        code := orFalsy r.data.code "UNKNOWN_ERROR"
        timestamp := orFalsy r.data.timestamp now
        path := orFalsy r.configUrl ""
        details := r.data.details }
    if r.status = 401 then (apiError, handleUnauthorized st)
    else if r.status = 403 then ({ apiError with message := "접근 권한이 없습니다." }, st)
    else if r.status = 404 then ({ apiError with message := "요청한 리소스를 찾을 수 없습니다." }, st)
    else if r.status = 500 then ({ apiError with message := "서버 내부 오류가 발생했습니다." }, st)
    else (apiError, st)
  | none =>
    if e.hasRequest then
      ({ message := "네트워크 연결을 확인해 주세요."
         code := "NETWORK_ERROR"
         timestamp := now
         path := orFalsy e.configUrl ""
         details := none }, st)
    else
      ({ message := "요청 설정 중 오류가 발생했습니다."
         code := "REQUEST_SETUP_ERROR"
         timestamp := now
         path := ""
         details := none }, st)

/-- HTTP methods the client issues. -/
inductive Method where
  | get
  | post
  | put
  | patch
  | delete
deriving DecidableEq, Repr

/-- The `ApiResponse<T>` envelope (from `@/types/api` as used by `api.ts`):
the public methods return only its inner `data` field. -/
structure ApiResponseEnv (T : Type) where
  success : Bool
  data : T
  message : Option String
deriving DecidableEq, Repr

/-- A server behavior: what the wire returns for one method and request
configuration. -/
def Server (T : Type) : Type :=
  Method → ReqConfig → Except AxiosErrorModel (ApiResponseEnv T)

/-- The request configuration the client builds for a url: the request
interceptor applied to a plain config with no Authorization header. -/
def builtConfig (st : ClientState) (url : String) : ReqConfig :=
  requestInterceptor st.authToken { url := url, authorization := none }

/-- One request through the axios instance: the request interceptor builds
the config; a success resolves with the envelope's inner `data` field; a
failure is normalized by the response error interceptor, never surfaced
raw. -/
def runRequest {T : Type} (now : String) (st : ClientState) (server : Server T)
    (m : Method) (url : String) : Except ApiError T × ClientState :=
  match server m (builtConfig st url) with
  | .ok env => (.ok env.data, st)
  | .error e =>
    let (ae, st2) := responseErrorInterceptor now st e
    (.error ae, st2)

/-- `ApiClient.get`: GET the url, return `response.data.data`. -/
def get {T : Type} (now : String) (st : ClientState) (server : Server T)
    (url : String) : Except ApiError T × ClientState :=
  runRequest now st server .get url

/-- `ApiClient.post`: POST the url, return `response.data.data`. -/
def post {T : Type} (now : String) (st : ClientState) (server : Server T)
    (url : String) : Except ApiError T × ClientState :=
  runRequest now st server .post url

/-- `ApiClient.put`: PUT the url, return `response.data.data`. -/
def put {T : Type} (now : String) (st : ClientState) (server : Server T)
    (url : String) : Except ApiError T × ClientState :=
  runRequest now st server .put url

/-- `ApiClient.patch`: PATCH the url, return `response.data.data`. -/
def patch {T : Type} (now : String) (st : ClientState) (server : Server T)
    (url : String) : Except ApiError T × ClientState :=
  runRequest now st server .patch url

/-- `ApiClient.delete`: DELETE the url, return `response.data.data`. -/
def delete {T : Type} (now : String) (st : ClientState) (server : Server T)
    (url : String) : Except ApiError T × ClientState :=
  runRequest now st server .delete url

/-- `ApiClient.uploadFile`: POST the form data to the url, return
`response.data.data`. -/
def uploadFile {T : Type} (now : String) (st : ClientState) (server : Server T)
    (url : String) : Except ApiError T × ClientState :=
  runRequest now st server .post url

/-- `ApiClient.healthCheck`: `return this.get('/health')`. -/
def healthCheck {T : Type} (now : String) (st : ClientState) (server : Server T) :
    Except ApiError T × ClientState :=
  get now st server "/health"

end ApiClient

namespace Engine

theorem code_mkCand (lex sem : List (String × ℚ)) (α : ℚ) (se : Bool)
    (c : String) : (mkCand lex sem α se c).code = c := rfl

theorem rankCandidates_perm (lex sem : List (String × ℚ)) (α : ℚ) (se : Bool) :
    (rankCandidates lex sem α se).Perm
      ((candCodes lex sem se).map (mkCand lex sem α se)) :=
  List.perm_insertionSort _ _

theorem map_code_rankCandidates_perm (lex sem : List (String × ℚ)) (α : ℚ)
    (se : Bool) :
    ((rankCandidates lex sem α se).map Candidate.code).Perm (candCodes lex sem se) := by
  have h := (rankCandidates_perm lex sem α se).map Candidate.code
  rwa [List.map_map, show Candidate.code ∘ mkCand lex sem α se = id from rfl,
    List.map_id] at h

theorem nodup_code_rankCandidates (lex sem : List (String × ℚ)) (α : ℚ)
    (se : Bool) : ((rankCandidates lex sem α se).map Candidate.code).Nodup :=
  (map_code_rankCandidates_perm lex sem α se).symm.nodup
    (List.nodup_dedup _)

theorem length_rankCandidates (lex sem : List (String × ℚ)) (α : ℚ) (se : Bool) :
    (rankCandidates lex sem α se).length = (candCodes lex sem se).length := by
  have h := (map_code_rankCandidates_perm lex sem α se).length_eq
  rwa [List.length_map] at h

theorem sorted_rankCandidates (lex sem : List (String × ℚ)) (α : ℚ) (se : Bool) :
    List.Sorted candRel (rankCandidates lex sem α se) :=
  List.sorted_insertionSort candRel _

theorem pairwise_candStrict_rankCandidates (lex sem : List (String × ℚ))
    (α : ℚ) (se : Bool) :
    List.Pairwise candStrict (rankCandidates lex sem α se) := by
  have hs : List.Pairwise candRel (rankCandidates lex sem α se) :=
    sorted_rankCandidates lex sem α se
  have hne : List.Pairwise (fun a b : Candidate => a.code ≠ b.code)
      (rankCandidates lex sem α se) :=
    (List.pairwise_map).mp (nodup_code_rankCandidates lex sem α se)
  refine (hs.and hne).imp ?_
  rintro a b ⟨hab, hne⟩
  rcases hab with h | ⟨heq, hle⟩
  · exact Or.inl h
  · exact Or.inr ⟨heq, lt_of_le_of_ne hle hne⟩

theorem candCodes_ne_nil (lex sem : List (String × ℚ)) (se : Bool)
    (h : lex ≠ [] ∨ (se = true ∧ sem ≠ [])) : candCodes lex sem se ≠ [] := by
  rw [candCodes, Ne, List.dedup_eq_nil, List.append_eq_nil]
  rintro ⟨h1, h2⟩
  rcases h with h | ⟨hse, h⟩
  · exact h (List.map_eq_nil_iff.mp h1)
  · rw [hse] at h2
    exact h (List.map_eq_nil_iff.mp h2)

theorem rankCandidates_ne_nil (lex sem : List (String × ℚ)) (α : ℚ) (se : Bool)
    (h : lex ≠ [] ∨ (se = true ∧ sem ≠ [])) :
    rankCandidates lex sem α se ≠ [] := by
  have hlen := length_rankCandidates lex sem α se
  intro hnil
  rw [hnil] at hlen
  exact candCodes_ne_nil lex sem se h
    (List.length_eq_zero.mp hlen.symm)

/-- C1: for every query (arbitrary signal candidate lists), every k ≥ 1,
every valid blend weight and any coherent cache state, `recommend` returns
a finite ordered sequence of length at most k, pairwise strictly descending
by blended score with code ascending as tie-break; running it twice with
the same cache state yields identical output; and the result is nonempty
unless both the lexical and the semantic index return no candidates. -/
theorem recommend_sorted_bounded (lex sem : List (String × ℚ)) (k : Nat)
    (α : ℚ) (se : Bool) (key : CacheKey) (cache : Cache) (w : Bool)
    (hα : 0 ≤ α ∧ α ≤ 1) (hk : 1 ≤ k)
    (hco : CacheCoherent lex sem α se key cache) :
    ∃ rs c2, recommend lex sem k α se key cache w = .ok (rs, c2) ∧
      rs.length ≤ k ∧ List.Pairwise candStrict rs ∧
      recommend lex sem k α se key cache w =
        recommend lex sem k α se key cache w ∧
      ((lex ≠ [] ∨ (se = true ∧ sem ≠ [])) → rs ≠ []) := by
  have hnc : ¬(α < 0 ∨ 1 < α) := by
    push_neg
    exact hα
  have hnk : ¬(k < 1) := not_lt.mpr hk
  have htake : ∀ h2 : lex ≠ [] ∨ (se = true ∧ sem ≠ []),
      (rankCandidates lex sem α se).take k ≠ [] := by
    intro h2 hnil
    have := congrArg List.length hnil
    rw [List.length_take, List.length_nil] at this
    rcases Nat.min_eq_zero_iff.mp this with h | h
    · omega
    · exact rankCandidates_ne_nil lex sem α se h2 (List.length_eq_zero.mp h)
  rw [recommend, if_neg hnc, if_neg hnk]
  cases hget : cacheGet cache key with
  | none =>
    refine ⟨(rankCandidates lex sem α se).take k, _, rfl, ?_, ?_, rfl, htake⟩
    · rw [List.length_take]
      exact min_le_left _ _
    · exact (pairwise_candStrict_rankCandidates lex sem α se).sublist
        (List.take_sublist ..)
  | some rs =>
    have hrs := hco rs hget
    subst hrs
    refine ⟨(rankCandidates lex sem α se).take k, cache, rfl, ?_, ?_, rfl, htake⟩
    · rw [List.length_take]
      exact min_le_left _ _
    · exact (pairwise_candStrict_rankCandidates lex sem α se).sublist
        (List.take_sublist ..)

/-- Witness for C1: a two-entry lexical candidate set, one semantic
candidate, k = 2, α = 1/2, the empty (trivially coherent) cache. -/
theorem recommend_sorted_bounded_witness :
    ∃ rs c2,
      recommend ([("b", 1), ("a", 2)] : List (String × ℚ))
          ([("a", 1)] : List (String × ℚ)) 2 (1/2) true ⟨1, 1, 1⟩ [] true
        = .ok (rs, c2) ∧
      rs.length ≤ 2 ∧ List.Pairwise candStrict rs ∧
      recommend ([("b", 1), ("a", 2)] : List (String × ℚ))
          ([("a", 1)] : List (String × ℚ)) 2 (1/2) true ⟨1, 1, 1⟩ [] true =
        recommend ([("b", 1), ("a", 2)] : List (String × ℚ))
          ([("a", 1)] : List (String × ℚ)) 2 (1/2) true ⟨1, 1, 1⟩ [] true ∧
      ((([("b", 1), ("a", 2)] : List (String × ℚ)) ≠ [] ∨
        (true = true ∧ ([("a", 1)] : List (String × ℚ)) ≠ [])) → rs ≠ []) :=
  recommend_sorted_bounded _ _ 2 (1/2) true ⟨1, 1, 1⟩ [] true
    (by norm_num) (by norm_num) (fun rs h => by simp [cacheGet] at h)

/-- C2: with the semantic capability disabled, `recommend` with valid inputs
never fails on that account; the ranking equals the pure lexical ranking
with α effectively forced to 1, and every candidate's blended score equals
its (normalized) lexical score, semantic score 0. -/
theorem recommend_semantic_fallback (lex sem : List (String × ℚ)) (k : Nat)
    (α : ℚ) (key : CacheKey) (cache : Cache) (w : Bool)
    (hα : 0 ≤ α ∧ α ≤ 1) (hk : 1 ≤ k) :
    (∃ rs c2, recommend lex sem k α false key cache w = .ok (rs, c2)) ∧
    rankCandidates lex sem α false = rankCandidates lex [] 1 true ∧
    ∀ c ∈ rankCandidates lex sem α false,
      c.semantic = 0 ∧ c.blended = c.lexical := by
  refine ⟨?_, ?_, ?_⟩
  · have hnc : ¬(α < 0 ∨ 1 < α) := by push_neg; exact hα
    have hnk : ¬(k < 1) := not_lt.mpr hk
    rw [recommend, if_neg hnc, if_neg hnk]
    cases cacheGet cache key with
    | none => exact ⟨_, _, rfl⟩
    | some rs => exact ⟨_, _, rfl⟩
  · rfl
  · intro c hc
    rw [rankCandidates, List.mem_insertionSort] at hc
    obtain ⟨code, _, rfl⟩ := List.mem_map.mp hc
    constructor
    · rfl
    · show (1 : ℚ) * lookupScore (minMaxNorm lex) code +
        (1 - 1) * lookupScore (minMaxNorm []) code = _
      ring_nf
      rfl

/-- Witness for C2 at a concrete input. -/
theorem recommend_semantic_fallback_witness :
    (∃ rs c2, recommend ([("b", 1), ("a", 2)] : List (String × ℚ))
        ([("c", 1)] : List (String × ℚ)) 1 (1/2) false ⟨1, 1, 1⟩ [] true
      = .ok (rs, c2)) ∧
    rankCandidates ([("b", 1), ("a", 2)] : List (String × ℚ))
        ([("c", 1)] : List (String × ℚ)) (1/2) false =
      rankCandidates ([("b", 1), ("a", 2)] : List (String × ℚ)) [] 1 true ∧
    ∀ c ∈ rankCandidates ([("b", 1), ("a", 2)] : List (String × ℚ))
        ([("c", 1)] : List (String × ℚ)) (1/2) false,
      c.semantic = 0 ∧ c.blended = c.lexical :=
  recommend_semantic_fallback _ _ 1 (1/2) ⟨1, 1, 1⟩ [] true
    (by norm_num) (by norm_num)

/-- C3: `recommend` validates caller inputs before any work: a blend weight
outside [0,1] fails with `InvalidConfigError`; with a valid blend weight,
k < 1 fails with `InvalidQueryError`; with valid inputs the returned length
is exactly the smaller of k and the number of available candidates — in
particular k larger than the corpus returns exactly the available results,
not padded. -/
theorem recommend_validates (lex sem : List (String × ℚ)) (k : Nat) (α : ℚ)
    (se : Bool) (key : CacheKey) (cache : Cache) (w : Bool) :
    ((α < 0 ∨ 1 < α) →
      recommend lex sem k α se key cache w = .error .invalidConfig) ∧
    (0 ≤ α → α ≤ 1 → k < 1 →
      recommend lex sem k α se key cache w = .error .invalidQuery) ∧
    (0 ≤ α → α ≤ 1 → 1 ≤ k → CacheCoherent lex sem α se key cache →
      ∃ rs c2, recommend lex sem k α se key cache w = .ok (rs, c2) ∧
        rs.length = min k (candCodes lex sem se).length) := by
  refine ⟨?_, ?_, ?_⟩
  · intro h
    rw [recommend, if_pos h]
  · intro h1 h2 h3
    have hnc : ¬(α < 0 ∨ 1 < α) := by push_neg; exact ⟨h1, h2⟩
    rw [recommend, if_neg hnc, if_pos h3]
  · intro h1 h2 h3 hco
    have hnc : ¬(α < 0 ∨ 1 < α) := by push_neg; exact ⟨h1, h2⟩
    have hnk : ¬(k < 1) := not_lt.mpr h3
    rw [recommend, if_neg hnc, if_neg hnk]
    cases hget : cacheGet cache key with
    | none =>
      refine ⟨_, _, rfl, ?_⟩
      rw [List.length_take, length_rankCandidates]
    | some rs =>
      have hrs := hco rs hget
      subst hrs
      refine ⟨_, _, rfl, ?_⟩
      rw [List.length_take, length_rankCandidates]

/-- Witness for C3: k = 0 is rejected with `InvalidQueryError`, α = 2 with
`InvalidConfigError`, and k = 3 over two available candidates returns
exactly 2 results. -/
theorem recommend_validates_witness :
    (recommend ([("b", 1), ("a", 2)] : List (String × ℚ)) [] 5 2 true
        ⟨1, 1, 1⟩ [] true = .error .invalidConfig) ∧
    (recommend ([("b", 1), ("a", 2)] : List (String × ℚ)) [] 0 (1/2) true
        ⟨1, 1, 1⟩ [] true = .error .invalidQuery) ∧
    (∃ rs c2, recommend ([("b", 1), ("a", 2)] : List (String × ℚ)) [] 3 (1/2)
        true ⟨1, 1, 1⟩ [] true = .ok (rs, c2) ∧ rs.length = 2) := by
  refine ⟨?_, ?_, ?_⟩
  · exact (recommend_validates _ _ 5 2 true ⟨1, 1, 1⟩ [] true).1
      (by norm_num)
  · exact (recommend_validates _ _ 0 (1/2) true ⟨1, 1, 1⟩ [] true).2.1
      (by norm_num) (by norm_num) (by norm_num)
  · obtain ⟨rs, c2, heq, hlen⟩ :=
      (recommend_validates ([("b", 1), ("a", 2)] : List (String × ℚ)) [] 3
        (1/2) true ⟨1, 1, 1⟩ [] true).2.2
        (by norm_num) (by norm_num) (by norm_num)
        (fun rs h => by simp [cacheGet] at h)
    exact ⟨rs, c2, heq, by simpa using hlen⟩

/-- C4: the Augmentation Stage is best-effort: for every capability failure
(timeout, quota, network — and an absent capability) it returns the
unaugmented ranked list unchanged, tagged as not augmented, and never
raises; and for every capability, successful or not, the cache component of
the pipeline is exactly the one produced by `recommend` — augmentation
output is never written to the Query Cache. -/
theorem augmentStage_best_effort (lex sem : List (String × ℚ)) (k : Nat)
    (α : ℚ) (se : Bool) (key : CacheKey) (cache : Cache) (w : Bool)
    (rs : List Candidate)
    (f : List Candidate → Except AugFailure (List Candidate)) :
    ((∃ fl, f rs = .error fl) → augmentStage (some f) rs = (rs, false)) ∧
    augmentStage none rs = (rs, false) ∧
    (∀ cap, Except.map Prod.snd (respond lex sem k α se key cache w cap) =
      Except.map Prod.snd (recommend lex sem k α se key cache w)) := by
  refine ⟨?_, rfl, ?_⟩
  · rintro ⟨fl, hfl⟩
    rw [augmentStage, hfl]
  · intro cap
    rw [respond]
    cases recommend lex sem k α se key cache w with
    | error e => rfl
    | ok p => rfl

/-- Witness for C4: a capability that times out passes the ranked list
through unchanged and untagged, and writes nothing to the cache. -/
theorem augmentStage_best_effort_witness :
    (augmentStage (some (fun _ => .error .timeout))
        [⟨"a", 1, 0, 1⟩] = ([⟨"a", 1, 0, 1⟩], false)) ∧
    (Except.map Prod.snd
        (respond ([("a", 1)] : List (String × ℚ)) [] 1 1 true ⟨1, 1, 1⟩ [] true
          (some (fun _ => .error .timeout))) =
      Except.map Prod.snd
        (recommend ([("a", 1)] : List (String × ℚ)) [] 1 1 true ⟨1, 1, 1⟩ []
          true)) := by
  have h := augmentStage_best_effort ([("a", 1)] : List (String × ℚ)) [] 1 1
    true ⟨1, 1, 1⟩ [] true [⟨"a", 1, 0, 1⟩] (fun _ => .error .timeout)
  exact ⟨h.1 ⟨.timeout, rfl⟩, h.2.2 (some (fun _ => .error .timeout))⟩

/-- C5: Result Cache `get` returns an `Option` and never fails — a miss is
the `none` outcome; a cache write failure is swallowed, leaving the
returned results unchanged; and with a coherent cache the results equal
those computed with the cache entirely absent. -/
theorem cache_is_optional (lex sem : List (String × ℚ)) (k : Nat) (α : ℚ)
    (se : Bool) (key : CacheKey) (cache : Cache) (w : Bool) :
    (cacheGet cache key = none ∨ ∃ v, cacheGet cache key = some v) ∧
    (Except.map Prod.fst (recommend lex sem k α se key cache true) =
      Except.map Prod.fst (recommend lex sem k α se key cache false)) ∧
    (CacheCoherent lex sem α se key cache →
      Except.map Prod.fst (recommend lex sem k α se key cache w) =
      Except.map Prod.fst (recommend lex sem k α se key [] w)) := by
  refine ⟨?_, ?_, ?_⟩
  · cases h : cacheGet cache key with
    | none => exact Or.inl rfl
    | some v => exact Or.inr ⟨v, rfl⟩
  · rw [recommend, recommend]
    by_cases h1 : α < 0 ∨ 1 < α
    · rw [if_pos h1, if_pos h1]
    · rw [if_neg h1, if_neg h1]
      by_cases h2 : k < 1
      · rw [if_pos h2, if_pos h2]
      · rw [if_neg h2, if_neg h2]
        cases cacheGet cache key with
        | none => rfl
        | some rs => rfl
  · intro hco
    rw [recommend, recommend]
    by_cases h1 : α < 0 ∨ 1 < α
    · rw [if_pos h1, if_pos h1]
    · rw [if_neg h1, if_neg h1]
      by_cases h2 : k < 1
      · rw [if_pos h2, if_pos h2]
      · rw [if_neg h2, if_neg h2]
        have hnil : cacheGet [] key = none := rfl
        rw [hnil]
        cases hget : cacheGet cache key with
        | none => rfl
        | some rs => rw [hco rs hget]; rfl

/-- Witness for C5 at a concrete input: a one-entry coherent cache. -/
theorem cache_is_optional_witness :
    (cacheGet [(⟨1, 1, 1⟩, rankCandidates ([("a", 1)] : List (String × ℚ)) []
        (1/2) true)] ⟨1, 1, 1⟩ = none ∨
      ∃ v, cacheGet [(⟨1, 1, 1⟩, rankCandidates
        ([("a", 1)] : List (String × ℚ)) [] (1/2) true)] ⟨1, 1, 1⟩ = some v) ∧
    (Except.map Prod.fst (recommend ([("a", 1)] : List (String × ℚ)) [] 1
        (1/2) true ⟨1, 1, 1⟩ [(⟨1, 1, 1⟩, rankCandidates
          ([("a", 1)] : List (String × ℚ)) [] (1/2) true)] true) =
      Except.map Prod.fst (recommend ([("a", 1)] : List (String × ℚ)) [] 1
        (1/2) true ⟨1, 1, 1⟩ [(⟨1, 1, 1⟩, rankCandidates
          ([("a", 1)] : List (String × ℚ)) [] (1/2) true)] false)) ∧
    (Except.map Prod.fst (recommend ([("a", 1)] : List (String × ℚ)) [] 1
        (1/2) true ⟨1, 1, 1⟩ [(⟨1, 1, 1⟩, rankCandidates
          ([("a", 1)] : List (String × ℚ)) [] (1/2) true)] true) =
      Except.map Prod.fst (recommend ([("a", 1)] : List (String × ℚ)) [] 1
        (1/2) true ⟨1, 1, 1⟩ [] true)) := by
  have h := cache_is_optional ([("a", 1)] : List (String × ℚ)) [] 1 (1/2)
    true ⟨1, 1, 1⟩
    [(⟨1, 1, 1⟩, rankCandidates ([("a", 1)] : List (String × ℚ)) [] (1/2)
      true)] true
  refine ⟨h.1, h.2.1, h.2.2 ?_⟩
  intro rs hget
  have : cacheGet [(⟨1, 1, 1⟩, rankCandidates
      ([("a", 1)] : List (String × ℚ)) [] (1/2) true)] ⟨1, 1, 1⟩ =
      some (rankCandidates ([("a", 1)] : List (String × ℚ)) [] (1/2) true) := by
    rw [cacheGet]
    rw [show ((([(⟨1, 1, 1⟩, rankCandidates
        ([("a", 1)] : List (String × ℚ)) [] (1/2) true)] : Cache)).find?
        (fun e => decide (e.1 = (⟨1, 1, 1⟩ : CacheKey)))) =
        some (⟨1, 1, 1⟩, rankCandidates ([("a", 1)] : List (String × ℚ)) []
          (1/2) true) from List.find?_cons_of_pos _ (by decide)]
  rw [this] at hget
  exact (Option.some_inj.mp hget).symm

/-- C6: a cache entry is consulted only while the corpus fingerprint it was
created under equals the live one: lookup ignores entries whose corpus
fingerprint differs (filtering them away changes nothing), and when every
entry was created under a different corpus fingerprint the lookup misses
and the computed results equal a fresh computation with an empty cache — a
stale entry is never reused. -/
theorem cache_corpus_fingerprint_guard (key : CacheKey) (cache : Cache) :
    (cacheGet cache key = cacheGet
      (cache.filter (fun e => decide (e.1.corpusFP = key.corpusFP))) key) ∧
    ((∀ e ∈ cache, e.1.corpusFP ≠ key.corpusFP) →
      cacheGet cache key = none ∧
      ∀ lex sem k α se w,
        Except.map Prod.fst (recommend lex sem k α se key cache w) =
        Except.map Prod.fst (recommend lex sem k α se key [] w)) := by
  constructor
  · induction cache with
    | nil => rfl
    | cons e rest ih =>
      by_cases he : e.1 = key
      · have hfp : e.1.corpusFP = key.corpusFP := by rw [he]
        simp only [cacheGet, List.filter, List.find?, he, hfp]
        simp
      · by_cases hfp : e.1.corpusFP = key.corpusFP
        · simpa [cacheGet, List.filter, List.find?, he, hfp] using ih
        · simpa [cacheGet, List.filter, List.find?, he, hfp] using ih
  · intro hmiss
    have hnone : cacheGet cache key = none := by
      rw [cacheGet]
      have : cache.find? (fun e => decide (e.1 = key)) = none := by
        rw [List.find?_eq_none]
        intro e he
        simp only [decide_eq_true_eq]
        intro heq
        exact hmiss e he (by rw [heq])
      rw [this]
    refine ⟨hnone, ?_⟩
    intro lex sem k α se w
    rw [recommend, recommend]
    by_cases h1 : α < 0 ∨ 1 < α
    · rw [if_pos h1, if_pos h1]
    · rw [if_neg h1, if_neg h1]
      by_cases h2 : k < 1
      · rw [if_pos h2, if_pos h2]
      · rw [if_neg h2, if_neg h2, hnone]
        rfl

/-- Witness for C6: one stale entry created under corpus fingerprint 1 is
invisible to a lookup under live corpus fingerprint 2. -/
theorem cache_corpus_fingerprint_guard_witness :
    (cacheGet [(⟨1, 7, 1⟩, [])] ⟨2, 7, 1⟩ = cacheGet
      ((([(⟨1, 7, 1⟩, [])] : Cache)).filter
        (fun e => decide (e.1.corpusFP = (⟨2, 7, 1⟩ : CacheKey).corpusFP)))
      ⟨2, 7, 1⟩) ∧
    (cacheGet [(⟨1, 7, 1⟩, [])] ⟨2, 7, 1⟩ = none ∧
      ∀ lex sem k α se w,
        Except.map Prod.fst (recommend lex sem k α se ⟨2, 7, 1⟩
          [(⟨1, 7, 1⟩, [])] w) =
        Except.map Prod.fst (recommend lex sem k α se ⟨2, 7, 1⟩ [] w)) := by
  have h := cache_corpus_fingerprint_guard ⟨2, 7, 1⟩ [(⟨1, 7, 1⟩, [])]
  exact ⟨h.1, h.2 (by intro e he; simp at he; rw [he]; decide)⟩

/-- C7: the query fingerprint is invariant under letter case, whitespace
amount and token order: any two query strings whose case-folded,
whitespace-collapsed token sets are equal get equal fingerprints, so they
share one Query Cache entry. -/
theorem queryFingerprint_token_set_invariant (q1 q2 : String)
    (h : (normTokens q1).toFinset = (normTokens q2).toFinset) :
    queryFingerprint q1 = queryFingerprint q2 := by
  rw [queryFingerprint, queryFingerprint]
  congr 1
  have hmem : ∀ a, a ∈ (normTokens q1).dedup ↔ a ∈ (normTokens q2).dedup := by
    intro a
    rw [List.mem_dedup, List.mem_dedup, ← List.mem_toFinset, h,
      List.mem_toFinset]
  have hperm : ((normTokens q1).dedup).Perm ((normTokens q2).dedup) :=
    (List.perm_ext_iff_of_nodup (List.nodup_dedup _)
      (List.nodup_dedup _)).mpr hmem
  have hperm2 : (List.insertionSort (· ≤ ·) (normTokens q1).dedup).Perm
      (List.insertionSort (· ≤ ·) (normTokens q2).dedup) :=
    (List.perm_insertionSort _ _).trans
      (hperm.trans (List.perm_insertionSort _ _).symm)
  exact List.eq_of_perm_of_sorted hperm2
    (List.sorted_insertionSort _ _) (List.sorted_insertionSort _ _)

/-- Witness for C7: two queries differing in case, whitespace amount and
token order share one fingerprint. -/
theorem queryFingerprint_token_set_invariant_witness :
    queryFingerprint "Horse  FOR breeding" =
      queryFingerprint " breeding horse for " :=
  queryFingerprint_token_set_invariant "Horse  FOR breeding"
    " breeding horse for " (by decide)

end Engine

namespace ApiClient

/-- C8: the transport client's boundary duties: the Authorization header is
set to `Bearer <token>` exactly when an auth token is available (a missing
or empty token leaves it unset); a 401 response clears the stored token and
redirects to the login page; 403, 404 and 500 replace the message with the
fixed texts; and `healthCheck` issues a GET of `/health`. -/
theorem transport_auth_mapping_health :
    (∀ t url, t ≠ "" →
      (requestInterceptor (some t)
        { url := url, authorization := none }).authorization =
        some ("Bearer " ++ t)) ∧
    (∀ url, (requestInterceptor none
      { url := url, authorization := none }).authorization = none) ∧
    (∀ url, (requestInterceptor (some "")
      { url := url, authorization := none }).authorization = none) ∧
    (∀ now st e r, e.response = some r → r.status = 401 →
      (responseErrorInterceptor now st e).2 =
        { st with authToken := none, location := "/login" }) ∧
    (∀ now st e r, e.response = some r → r.status = 403 →
      (responseErrorInterceptor now st e).1.message = "접근 권한이 없습니다.") ∧
    (∀ now st e r, e.response = some r → r.status = 404 →
      (responseErrorInterceptor now st e).1.message =
        "요청한 리소스를 찾을 수 없습니다.") ∧
    (∀ now st e r, e.response = some r → r.status = 500 →
      (responseErrorInterceptor now st e).1.message =
        "서버 내부 오류가 발생했습니다.") ∧
    (∀ (T : Type) now st (server : Server T),
      healthCheck now st server = runRequest now st server .get "/health") := by
  refine ⟨?_, ?_, ?_, ?_, ?_, ?_, ?_, ?_⟩
  · intro t url ht
    simp [requestInterceptor, ht]
  · intro url
    simp [requestInterceptor]
  · intro url
    simp [requestInterceptor]
  · intro now st e r hresp hstat
    simp [responseErrorInterceptor, hresp, hstat, handleUnauthorized]
  · intro now st e r hresp hstat
    simp [responseErrorInterceptor, hresp, hstat]
  · intro now st e r hresp hstat
    simp [responseErrorInterceptor, hresp, hstat]
  · intro now st e r hresp hstat
    simp [responseErrorInterceptor, hresp, hstat]
  · intro T now st server
    rfl

/-- Witness for C8 at concrete inputs. -/
theorem transport_auth_mapping_health_witness :
    (requestInterceptor (some "tok")
      { url := "/codes", authorization := none }).authorization =
      some ("Bearer " ++ "tok") ∧
    (responseErrorInterceptor "t0" ⟨some "tok", "/home"⟩
        ⟨some ⟨401, ⟨none, none, none, none⟩, some "/codes"⟩, true, none⟩).2 =
      { (⟨some "tok", "/home"⟩ : ClientState) with
        authToken := none, location := "/login" } ∧
    (responseErrorInterceptor "t0" ⟨some "tok", "/home"⟩
        ⟨some ⟨403, ⟨none, none, none, none⟩, some "/codes"⟩, true, none⟩).1.message =
      "접근 권한이 없습니다." ∧
    healthCheck "t0" ⟨none, "/"⟩
        (fun _ _ => Except.ok (⟨true, (0 : Nat), none⟩ : ApiResponseEnv Nat)) =
      runRequest "t0" ⟨none, "/"⟩
        (fun _ _ => Except.ok (⟨true, (0 : Nat), none⟩ : ApiResponseEnv Nat))
        .get "/health" :=
  ⟨transport_auth_mapping_health.1 "tok" "/codes" (by decide),
   transport_auth_mapping_health.2.2.2.1 "t0" ⟨some "tok", "/home"⟩
     ⟨some ⟨401, ⟨none, none, none, none⟩, some "/codes"⟩, true, none⟩
     ⟨401, ⟨none, none, none, none⟩, some "/codes"⟩ rfl rfl,
   transport_auth_mapping_health.2.2.2.2.1 "t0" ⟨some "tok", "/home"⟩
     ⟨some ⟨403, ⟨none, none, none, none⟩, some "/codes"⟩, true, none⟩
     ⟨403, ⟨none, none, none, none⟩, some "/codes"⟩ rfl rfl,
   transport_auth_mapping_health.2.2.2.2.2.2.2 Nat "t0" ⟨none, "/"⟩
     (fun _ _ => Except.ok (⟨true, (0 : Nat), none⟩ : ApiResponseEnv Nat))⟩

/-- C9: every failed request rejects with the normalized `ApiError` record
(which by construction always carries message, code, timestamp and path),
never the raw transport error: with a server response, a missing code
defaults to `UNKNOWN_ERROR` and a missing message (outside the fixed-text
statuses) to the generic server-error text; with no response the code is
`NETWORK_ERROR`; with a setup failure it is `REQUEST_SETUP_ERROR`. -/
theorem apiError_normalized (now : String) (st : ClientState)
    (e : AxiosErrorModel) :
    (e.response = none → e.hasRequest = true →
      (responseErrorInterceptor now st e).1.code = "NETWORK_ERROR") ∧
    (e.response = none → e.hasRequest = false →
      (responseErrorInterceptor now st e).1.code = "REQUEST_SETUP_ERROR") ∧
    (∀ r, e.response = some r → r.data.code = none →
      (responseErrorInterceptor now st e).1.code = "UNKNOWN_ERROR") ∧
    (∀ r, e.response = some r → r.data.message = none →
      r.status ≠ 403 → r.status ≠ 404 → r.status ≠ 500 →
      (responseErrorInterceptor now st e).1.message =
        "서버 오류가 발생했습니다.") ∧
    (∀ (T : Type) (server : Server T) m url,
      server m (builtConfig st url) = .error e →
      runRequest now st server m url =
        (.error (responseErrorInterceptor now st e).1,
          (responseErrorInterceptor now st e).2)) := by
  refine ⟨?_, ?_, ?_, ?_, ?_⟩
  · intro hresp hreq
    simp [responseErrorInterceptor, hresp, hreq]
  · intro hresp hreq
    simp [responseErrorInterceptor, hresp, hreq]
  · intro r hresp hcode
    simp only [responseErrorInterceptor, hresp]
    split_ifs <;> simp [orFalsy, hcode]
  · intro r hresp hmsg h403 h404 h500
    simp only [responseErrorInterceptor, hresp]
    split_ifs with h1 <;> simp [orFalsy, hmsg]
  · intro T server m url hserv
    rw [runRequest, hserv]

/-- Witness for C9: a request that never reached the server is rejected
with the `NETWORK_ERROR` code. -/
theorem apiError_normalized_witness :
    (responseErrorInterceptor "t0" ⟨none, "/"⟩ ⟨none, true, none⟩).1.code =
      "NETWORK_ERROR" :=
  (apiError_normalized "t0" ⟨none, "/"⟩ ⟨none, true, none⟩).1 rfl rfl

/-- C10: on success every public request method — get, post, put, patch,
delete and uploadFile — resolves with exactly the inner `data` field of the
server's `ApiResponse` envelope, never the envelope itself. -/
theorem client_returns_inner_data (T : Type) (now : String) (st : ClientState)
    (server : Server T) (url : String) (env : ApiResponseEnv T) :
    (server .get (builtConfig st url) = .ok env →
      get now st server url = (.ok env.data, st)) ∧
    (server .post (builtConfig st url) = .ok env →
      post now st server url = (.ok env.data, st)) ∧
    (server .put (builtConfig st url) = .ok env →
      put now st server url = (.ok env.data, st)) ∧
    (server .patch (builtConfig st url) = .ok env →
      patch now st server url = (.ok env.data, st)) ∧
    (server .delete (builtConfig st url) = .ok env →
      delete now st server url = (.ok env.data, st)) ∧
    (server .post (builtConfig st url) = .ok env →
      uploadFile now st server url = (.ok env.data, st)) := by
  refine ⟨?_, ?_, ?_, ?_, ?_, ?_⟩ <;>
    · intro h
      simp only [ApiClient.get, ApiClient.post, ApiClient.put, ApiClient.patch,
        ApiClient.delete, ApiClient.uploadFile, runRequest, h]

/-- Witness for C10: a server answering GET with envelope data 42. -/
theorem client_returns_inner_data_witness :
    get "t0" (⟨none, "/"⟩ : ClientState)
      (fun _ _ => Except.ok (⟨true, (42 : Nat), none⟩ : ApiResponseEnv Nat))
      "/codes" = (.ok 42, (⟨none, "/"⟩ : ClientState)) :=
  (client_returns_inner_data Nat "t0" ⟨none, "/"⟩
    (fun _ _ => Except.ok (⟨true, (42 : Nat), none⟩ : ApiResponseEnv Nat))
    "/codes" ⟨true, 42, none⟩).1 rfl

end ApiClient

end CustomsClearance
